import Mathlib

/-!
Shallow embedding of the reaction-duel match coordination engine
(`src/lib/duelStore.ts`, the CAS-based variant, together with the create,
click and payout HTTP routes).  Machine timestamps are modelled as `Int`
(JavaScript millisecond clock values), monetary amounts as `Int`
(lamports), and the `Math.random()`-derived extra delay as an explicit
parameter `rand` with `0 ≤ rand ≤ 1299` standing for
`Math.floor(Math.random() * 1300)`.
-/

namespace ReactionDuel

/-- The two parties of a duel: `A` is the creator, `B` the joiner. -/
inductive Party where
  | A
  | B
deriving DecidableEq, Repr

/-- `DuelPhase` from `duelStore.ts`. -/
inductive DuelPhase where
  | lobby
  | countdown
  | waiting_random
  | go
  | finished
deriving DecidableEq, Repr

/-- The `Duel` record from `duelStore.ts`.  Optional TypeScript fields are
`Option`s; the boolean flags are initialised by `createDuel` and so are
modelled as plain `Bool`. -/
structure Duel where
  duelId : String
  stakeLamports : Int
  feeBps : Int
  createdBy : String
  joinedBy : Option String
  createdAt : Int
  updatedAt : Int
  phase : DuelPhase
  revealAt : Option Int
  goAt : Option Int
  clickA : Option Int
  clickB : Option Int
  falseA : Bool
  falseB : Bool
  winner : Option Party
  paidA : Bool
  paidB : Bool
  paySigA : Option String
  paySigB : Option String
  payoutSig : Option String
  finishedAt : Option Int
  readyA : Bool
  readyB : Bool
  readyDeadlineAt : Option Int
  firstClickAt : Option Int
  finalizeAt : Option Int
  historyRecorded : Bool
deriving DecidableEq, Repr

/-- The opposite party (`input.who === "A" ? "B" : "A"`). -/
def Party.opponent : Party → Party
  | .A => .B
  | .B => .A

/-- The recorded reaction time of a party (`clickA` / `clickB`). -/
def Duel.click (d : Duel) : Party → Option Int
  | .A => d.clickA
  | .B => d.clickB

/-- The false-start flag of a party (`falseA` / `falseB`). -/
def Duel.falseFlag (d : Duel) : Party → Bool
  | .A => d.falseA
  | .B => d.falseB

/-- Errors thrown by the store operations and route handlers. -/
inductive DuelErr where
  | notFound
  | alreadyExists
  | alreadyJoined
  | cannotJoinOwn
  | creatorNotPaid
  | notJoinable
  | notJoined
  | notAPlayer
  | notStarted
  | notPaid
  | notFinished
  | badInput
  | badStake
deriving DecidableEq, Repr

/-- `feeFor` from `duelStore.ts`: `Math.floor((stake * feeBps) / 10_000)`.
`Int.fdiv` is flooring division, matching `Math.floor` on integer inputs. -/
def feeFor (stake feeBps : Int) : Int :=
  Int.fdiv (stake * feeBps) 10000

/-- `netStakeFor` from `duelStore.ts`: `Math.max(0, stake - feeFor(stake, feeBps))`. -/
def netStakeFor (stake feeBps : Int) : Int :=
  max 0 (stake - feeFor stake feeBps)

/-- The payout amount computed by the payout route: `net * 2`. -/
def potLamports (stake feeBps : Int) : Int :=
  netStakeFor stake feeBps * 2

/-- `startNow` from `duelStore.ts`: arms a new round at server time `t`.
`rand` models `Math.floor(Math.random() * 1300)`, so the random delay is
`900 + rand`. -/
def startNow (d : Duel) (t rand : Int) : Duel :=
  { d with
    revealAt := some (t + 3000)
    goAt := some (t + 3000 + (900 + rand))
    phase := .countdown
    clickA := none
    clickB := none
    falseA := false
    falseB := false
    winner := none
    finishedAt := none
    firstClickAt := none
    finalizeAt := none
    historyRecorded := false }

/-- `advancePhase` from `duelStore.ts`: time-driven transitions
`countdown → waiting_random` at `revealAt` and
`countdown/waiting_random → go` at `goAt`.  The source runs its two `if`
statements in sequence on the mutated record; here the same outcome is
written as disjoint cases (a countdown past `revealAt` lands in
`waiting_random`, and further past `goAt` directly in `go`). -/
def advancePhase (d : Duel) (t : Int) : Duel :=
  if d.phase = .finished then d
  else if d.revealAt.isNone ∨ d.goAt.isNone then d
  else if d.phase = .countdown ∧ d.revealAt.getD 0 ≤ t then
    (if d.goAt.getD 0 ≤ t then { d with phase := .go }
     else { d with phase := .waiting_random })
  else if (d.phase = .countdown ∨ d.phase = .waiting_random) ∧ d.goAt.getD 0 ≤ t then
    { d with phase := .go }
  else d

/-- `maybeStartFromReadyRoom` from `duelStore.ts`: arms the 30 s ready
deadline and starts the round when both parties are ready or the deadline
has elapsed. -/
def maybeStartFromReadyRoom (d : Duel) (t rand : Int) : Duel :=
  if d.phase = .finished then d
  else if d.phase ≠ .lobby then d
  else if d.joinedBy.isNone then d
  else if ¬d.paidA ∨ ¬d.paidB then d
  else
    let dl := d.readyDeadlineAt.getD (t + 30000)
    let d1 : Duel := { d with readyDeadlineAt := some dl }
    if (d1.readyA ∧ d1.readyB) ∨ dl ≤ t then startNow d1 t rand else d1

/-- `finalizeIfOverdueInternal` from `duelStore.ts`: once `finalizeAt` has
passed, a sole clicker wins by forfeiture. -/
def finalizeIfOverdueInternal (d : Duel) (t : Int) : Duel :=
  if d.phase = .finished then d
  else
    match d.finalizeAt with
    | none => d
    | some f =>
      if t < f then d
      else if d.clickA.isSome ∧ d.clickB.isSome then d
      else if d.clickA.isSome ∧ d.clickB.isNone then
        { d with winner := some .A, phase := .finished,
                 finishedAt := some (d.finishedAt.getD t) }
      else if d.clickB.isSome ∧ d.clickA.isNone then
        { d with winner := some .B, phase := .finished,
                 finishedAt := some (d.finishedAt.getD t) }
      else d

/-- The time-driven transition pipeline applied by `getDuel` and
`updateDuelWithRetry` before any requested mutation:
`maybeStartFromReadyRoom`, then `advancePhase`, then
`finalizeIfOverdueInternal`, all at server time `t`. -/
def timeStep (d : Duel) (t rand : Int) : Duel :=
  finalizeIfOverdueInternal (advancePhase (maybeStartFromReadyRoom d t rand) t) t

/-- The fresh record built by `createDuel`. -/
def mkDuel (duelId createdBy : String) (stake feeBps : Int)
    (paySigA : String) (t : Int) : Duel :=
  { duelId := duelId
    stakeLamports := stake
    feeBps := feeBps
    createdBy := createdBy
    joinedBy := none
    createdAt := t
    updatedAt := t
    phase := .lobby
    revealAt := none
    goAt := none
    clickA := none
    clickB := none
    falseA := false
    falseB := false
    winner := none
    paidA := true
    paidB := false
    paySigA := some paySigA
    paySigB := none
    payoutSig := none
    finishedAt := none
    readyA := false
    readyB := false
    readyDeadlineAt := none
    firstClickAt := none
    finalizeAt := none
    historyRecorded := false }

/-- The create route handler (`src/app/api/duel/create/route.ts`): rejects
missing fields and a non-positive stake, but performs no check at all on
`feeBps`, then builds the fresh record. -/
def createRoute (duelId createdBy : String) (stake feeBps : Int)
    (paySigA : String) (t : Int) : Except DuelErr Duel :=
  if duelId = "" ∨ createdBy = "" ∨ paySigA = "" then .error .badInput
  else if stake ≤ 0 then .error .badStake
  else .ok (mkDuel duelId createdBy stake feeBps paySigA t)

/-- The `joinDuel` mutator from `duelStore.ts`. -/
def joinMutator (d : Duel) (joinedBy paySigB : String) (t : Int) :
    Except DuelErr Duel :=
  if d.joinedBy.isSome then .error .alreadyJoined
  else if d.createdBy = joinedBy then .error .cannotJoinOwn
  else if ¬d.paidA then .error .creatorNotPaid
  else if d.phase ≠ .lobby then .error .notJoinable
  else .ok { d with
    joinedBy := some joinedBy
    paidB := true
    paySigB := some paySigB
    readyA := false
    readyB := false
    readyDeadlineAt := some (t + 30000) }

/-- The `setReady` mutator from `duelStore.ts`. -/
def setReadyMutator (d : Duel) (pubkey : String) (t rand : Int) :
    Except DuelErr Duel :=
  if d.joinedBy.isNone then .error .notJoined
  else if d.phase = .finished then .ok d
  else if d.phase ≠ .lobby then .ok d
  else
    if pubkey = d.createdBy then
      let d1 : Duel := { d with readyA := true }
      let d2 : Duel := { d1 with readyDeadlineAt := some (d1.readyDeadlineAt.getD (t + 30000)) }
      if d2.readyA ∧ d2.readyB then .ok (startNow d2 t rand) else .ok d2
    else if some pubkey = d.joinedBy then
      let d1 : Duel := { d with readyB := true }
      let d2 : Duel := { d1 with readyDeadlineAt := some (d1.readyDeadlineAt.getD (t + 30000)) }
      if d2.readyA ∧ d2.readyB then .ok (startNow d2 t rand) else .ok d2
    else .error .notAPlayer

/-- The false-start resolution shared by the early-click and too-fast
branches of `applyClick`: flag the clicker, award the opponent, finish. -/
def finishFalseStart (d : Duel) (who : Party) (t : Int) : Duel :=
  let d1 : Duel := match who with
    | .A => { d with falseA := true }
    | .B => { d with falseB := true }
  { d1 with winner := some who.opponent, phase := .finished, finishedAt := some t }

/-- The tail of the click-recording path of `applyClick`: with the
reaction time stored (and the finalize deadline possibly armed), finish
the match if both parties now have reaction times (ties go to `A`),
otherwise settle into `go`. -/
def finishOrGo (d2 : Duel) (t : Int) : Duel :=
  if d2.clickA.isSome ∧ d2.clickB.isSome then
    { d2 with
      winner := some (if d2.clickA.getD 0 ≤ d2.clickB.getD 0 then Party.A else Party.B)
      phase := .finished
      finishedAt := some t }
  else { d2 with phase := .go }

/-- The click-recording path of `applyClick`: store the reaction time,
arm the finalize deadline on the round's first click, then `finishOrGo`. -/
def recordClick (d : Duel) (who : Party) (r t : Int) : Duel :=
  let d1 : Duel := match who with
    | .A => { d with clickA := some r }
    | .B => { d with clickB := some r }
  if d1.firstClickAt.isNone then
    finishOrGo { d1 with firstClickAt := some t, finalizeAt := some (t + 5000) } t
  else finishOrGo d1 t

/-- The `applyClick` mutator from `duelStore.ts` (CAS variant):
guards, internal time-driven transitions, early-click and too-fast
false-start branches, repeat-click no-op, then click recording. -/
def applyClickMutator (d0 : Duel) (who : Party) (clickedAt t : Int) :
    Except DuelErr Duel :=
  if d0.joinedBy.isNone then .error .notJoined
  else if d0.revealAt.isNone ∨ d0.goAt.isNone then .error .notStarted
  else if ¬d0.paidA ∨ ¬d0.paidB then .error .notPaid
  else if d0.phase = .finished then .ok d0
  else
    let d := finalizeIfOverdueInternal (advancePhase d0 t) t
    if d.phase = .finished then .ok d
    else if clickedAt < d.goAt.getD 0 then .ok (finishFalseStart d who t)
    else
      let reactionMs := max 0 (clickedAt - d.goAt.getD 0)
      if reactionMs < 120 then .ok (finishFalseStart d who t)
      else if (d.click who).isSome then .ok d
      else .ok (recordClick d who reactionMs t)

/-- The `markPayout` mutator from `duelStore.ts`: idempotent receipt write. -/
def markPayoutMutator (d : Duel) (sig : String) : Except DuelErr Duel :=
  if d.phase ≠ .finished then .error .notFinished
  else if d.payoutSig.isSome then .ok d
  else .ok { d with payoutSig := some sig }

/-- `joinDuel` as persisted: `updateDuelWithRetry` applies the time-driven
transitions, then the join mutator. -/
def joinOp (d : Duel) (joinedBy paySigB : String) (t rand : Int) :
    Except DuelErr Duel :=
  joinMutator (timeStep d t rand) joinedBy paySigB t

/-- `setReady` as persisted. -/
def setReadyOp (d : Duel) (pubkey : String) (t rand : Int) :
    Except DuelErr Duel :=
  setReadyMutator (timeStep d t rand) pubkey t rand

/-- `applyClick` as persisted. -/
def applyClickOp (d : Duel) (who : Party) (clickedAt t rand : Int) :
    Except DuelErr Duel :=
  applyClickMutator (timeStep d t rand) who clickedAt t

/-- `markPayout` as persisted. -/
def markPayoutOp (d : Duel) (sig : String) (t rand : Int) :
    Except DuelErr Duel :=
  markPayoutMutator (timeStep d t rand) sig

/-- `getDuel` (fetch): only the time-driven transitions are applied and
persisted. -/
def getDuelOp (d : Duel) (t rand : Int) : Duel :=
  timeStep d t rand

/-- `casSaveDuel` from `duelStore.ts` modelled on one store cell: the Lua
script compares the stored record's `updatedAt` with the version stamp
observed at read time; on a match it stores `next` with `updatedAt` set to
the write-time clock value `tWrite`.  Returns the new cell together with
the script's result code (`-1` missing, `0` conflict, `1` written). -/
def casSaveDuel (cur : Option Duel) (expected tWrite : Int) (next : Duel) :
    Option Duel × Int :=
  match cur with
  | none => (none, -1)
  | some c =>
    if c.updatedAt ≠ expected then (some c, 0)
    else (some { next with updatedAt := tWrite }, 1)

/-- Responses of the payout route (`src/app/api/duel/payout/route.ts`). -/
inductive SettleResp where
  | lockedBusy (d : Option Duel)
  | notFound
  | notFinished
  | noWinner
  | failed (e : DuelErr)
  | ok (d : Duel)
deriving DecidableEq, Repr

/-- The payout route decision logic, after the lock-acquisition attempt and
the post-lock re-fetch: `lockAcquired` is whether the `SET NX PX` lock call
succeeded, `fetched` is the re-fetched record.  The returned `Bool` is
whether the external Settlement Executor (the on-chain transfer) was
invoked; when it is, the receipt `execSig` is persisted via `markPayout`. -/
def settleStep (lockAcquired : Bool) (fetched : Option Duel)
    (execSig : String) : SettleResp × Bool :=
  if ¬lockAcquired then (.lockedBusy fetched, false)
  else
    match fetched with
    | none => (.notFound, false)
    | some d =>
      if d.phase ≠ .finished then (.notFinished, false)
      else if d.winner.isNone then (.noWinner, false)
      else if d.payoutSig.isSome then (.ok d, false)
      else
        match markPayoutMutator d execSig with
        | .ok d1 => (.ok d1, true)
        | .error e => (.failed e, true)

/-- Match records persisted by some sequence of public operations, starting
from `createDuel` and stepping through fetch, join, ready, click and
payout-marking, at arbitrary server times and random draws. -/
inductive Reachable : Duel → Prop where
  | create (duelId createdBy : String) (stake feeBps : Int)
      (paySigA : String) (t : Int) :
      Reachable (mkDuel duelId createdBy stake feeBps paySigA t)
  | fetch (d : Duel) (t rand : Int) : Reachable d → Reachable (getDuelOp d t rand)
  | join (d d1 : Duel) (joinedBy paySigB : String) (t rand : Int) :
      Reachable d → joinOp d joinedBy paySigB t rand = .ok d1 → Reachable d1
  | ready (d d1 : Duel) (pubkey : String) (t rand : Int) :
      Reachable d → setReadyOp d pubkey t rand = .ok d1 → Reachable d1
  | click (d d1 : Duel) (who : Party) (clickedAt t rand : Int) :
      Reachable d → applyClickOp d who clickedAt t rand = .ok d1 → Reachable d1
  | payout (d d1 : Duel) (sig : String) (t rand : Int) :
      Reachable d → markPayoutOp d sig t rand = .ok d1 → Reachable d1

/-- The C2 invariant: the winner is present iff the phase is `finished`. -/
def WinnerIffFinished (d : Duel) : Prop :=
  d.winner.isSome ↔ d.phase = .finished

/-- A concrete mid-round record used to evaluate the click and finalize
logic: joined and paid, round started (`revealAt = 3000`, `goAt = 4000`),
party `A` clicked with a 200 ms reaction at server time 4200, arming
`finalizeAt = 9200`; party `B` has not clicked. -/
def exDuelGoA : Duel :=
  { mkDuel "D" "ALICE" 100 300 "SA" 0 with
    joinedBy := some "BOB"
    paidB := true
    phase := .go
    revealAt := some 3000
    goAt := some 4000
    clickA := some 200
    firstClickAt := some 4200
    finalizeAt := some 9200 }

/-- A concrete joined, paid, both-ready lobby record. -/
def exDuelReady : Duel :=
  { mkDuel "D" "ALICE" 100 300 "SA" 0 with
    joinedBy := some "BOB"
    paidB := true
    readyA := true
    readyB := true }

/-- A concrete finished, settled record: winner `A`, payout receipt
already persisted. -/
def exDuelSettled : Duel :=
  { mkDuel "D" "ALICE" 100 300 "SA" 0 with
    joinedBy := some "BOB"
    paidB := true
    phase := .finished
    revealAt := some 3000
    goAt := some 4000
    clickA := some 200
    clickB := some 300
    winner := some .A
    finishedAt := some 4500
    firstClickAt := some 4200
    finalizeAt := some 9200
    payoutSig := some "RECEIPT1" }

/- Field-preservation lemmas: `advancePhase` only touches `phase`. -/

theorem advancePhase_winner (d : Duel) (t : Int) :
    (advancePhase d t).winner = d.winner := by
  unfold advancePhase; split_ifs <;> rfl

theorem advancePhase_goAt (d : Duel) (t : Int) :
    (advancePhase d t).goAt = d.goAt := by
  unfold advancePhase; split_ifs <;> rfl

theorem advancePhase_clickA (d : Duel) (t : Int) :
    (advancePhase d t).clickA = d.clickA := by
  unfold advancePhase; split_ifs <;> rfl

theorem advancePhase_clickB (d : Duel) (t : Int) :
    (advancePhase d t).clickB = d.clickB := by
  unfold advancePhase; split_ifs <;> rfl

theorem advancePhase_click (d : Duel) (t : Int) (p : Party) :
    (advancePhase d t).click p = d.click p := by
  cases p <;> simp [Duel.click, advancePhase_clickA, advancePhase_clickB]

/- Field-preservation lemmas: `finalizeIfOverdueInternal` only touches
`winner`, `phase` and `finishedAt`. -/

theorem finalize_goAt (d : Duel) (t : Int) :
    (finalizeIfOverdueInternal d t).goAt = d.goAt := by
  unfold finalizeIfOverdueInternal
  split
  · rfl
  · split <;> first | rfl | (split_ifs <;> rfl)

theorem finalize_clickA (d : Duel) (t : Int) :
    (finalizeIfOverdueInternal d t).clickA = d.clickA := by
  unfold finalizeIfOverdueInternal
  split
  · rfl
  · split <;> first | rfl | (split_ifs <;> rfl)

theorem finalize_clickB (d : Duel) (t : Int) :
    (finalizeIfOverdueInternal d t).clickB = d.clickB := by
  unfold finalizeIfOverdueInternal
  split
  · rfl
  · split <;> first | rfl | (split_ifs <;> rfl)

theorem finalize_click (d : Duel) (t : Int) (p : Party) :
    (finalizeIfOverdueInternal d t).click p = d.click p := by
  cases p <;> simp [Duel.click, finalize_clickA, finalize_clickB]

/- Invariant preservation lemmas for C2. -/

theorem wif_startNow (d : Duel) (t rand : Int) :
    WinnerIffFinished (startNow d t rand) := by
  simp [WinnerIffFinished, startNow]

theorem wif_maybeStart (d : Duel) (t rand : Int)
    (h : WinnerIffFinished d) :
    WinnerIffFinished (maybeStartFromReadyRoom d t rand) := by
  unfold maybeStartFromReadyRoom
  split_ifs with h1 h2 h3 h4
  · exact h
  · exact h
  · exact h
  · exact h
  · dsimp only
    split_ifs with h5
    · exact wif_startNow _ _ _
    · unfold WinnerIffFinished at h ⊢
      simpa using h

theorem wif_advancePhase (d : Duel) (t : Int)
    (h : WinnerIffFinished d) :
    WinnerIffFinished (advancePhase d t) := by
  unfold WinnerIffFinished at h ⊢
  unfold advancePhase
  split_ifs with h1 h2 h3 h4 h5 <;> simp_all

theorem wif_finalize (d : Duel) (t : Int)
    (h : WinnerIffFinished d) :
    WinnerIffFinished (finalizeIfOverdueInternal d t) := by
  unfold WinnerIffFinished at h ⊢
  unfold finalizeIfOverdueInternal
  split
  · exact h
  · split
    · exact h
    · split_ifs <;> simp_all

theorem wif_timeStep (d : Duel) (t rand : Int)
    (h : WinnerIffFinished d) :
    WinnerIffFinished (timeStep d t rand) :=
  wif_finalize _ _ (wif_advancePhase _ _ (wif_maybeStart _ _ _ h))

theorem wif_finishFalseStart (d : Duel) (who : Party) (t : Int) :
    WinnerIffFinished (finishFalseStart d who t) := by
  cases who <;> simp [WinnerIffFinished, finishFalseStart]

theorem wif_finishOrGo (d : Duel) (t : Int)
    (h : WinnerIffFinished d) (hph : d.phase ≠ .finished) :
    WinnerIffFinished (finishOrGo d t) := by
  unfold WinnerIffFinished at h ⊢
  unfold finishOrGo
  split_ifs <;> simp_all

theorem wif_recordClick (d : Duel) (who : Party) (r t : Int)
    (h : WinnerIffFinished d) (hph : d.phase ≠ .finished) :
    WinnerIffFinished (recordClick d who r t) := by
  unfold WinnerIffFinished at h
  unfold recordClick
  cases who <;> dsimp only <;> split_ifs <;>
    (apply wif_finishOrGo <;>
      first
        | (unfold WinnerIffFinished; simpa using h)
        | simpa using hph)

theorem wif_joinMutator (d d1 : Duel) (joinedBy paySigB : String) (t : Int)
    (hok : joinMutator d joinedBy paySigB t = .ok d1)
    (h : WinnerIffFinished d) :
    WinnerIffFinished d1 := by
  unfold joinMutator at hok
  split_ifs at hok <;> simp_all [WinnerIffFinished]
  · rw [← hok]; simpa [WinnerIffFinished] using h

theorem wif_setReadyMutator (d d1 : Duel) (pubkey : String) (t rand : Int)
    (hok : setReadyMutator d pubkey t rand = .ok d1)
    (h : WinnerIffFinished d) :
    WinnerIffFinished d1 := by
  unfold setReadyMutator at hok
  dsimp only at hok
  split_ifs at hok
  all_goals
    first
      | exact Except.noConfusion hok
      | (have he := Except.ok.inj hok
         subst he
         first
           | exact h
           | exact wif_startNow _ _ _
           | (unfold WinnerIffFinished at h ⊢; simpa using h))

theorem wif_applyClickMutator (d0 d1 : Duel) (who : Party) (clickedAt t : Int)
    (hok : applyClickMutator d0 who clickedAt t = .ok d1)
    (h : WinnerIffFinished d0) :
    WinnerIffFinished d1 := by
  unfold applyClickMutator at hok
  dsimp only at hok
  split_ifs at hok with h1 h2 h3 h4 h5 h6 h7 h8
  all_goals
    first
      | exact Except.noConfusion hok
      | (have he := Except.ok.inj hok
         subst he
         first
           | exact h
           | exact wif_finalize _ _ (wif_advancePhase _ _ h)
           | exact wif_finishFalseStart _ _ _
           | exact wif_recordClick _ _ _ _
               (wif_finalize _ _ (wif_advancePhase _ _ h)) (by assumption))

theorem wif_markPayoutMutator (d d1 : Duel) (sig : String)
    (hok : markPayoutMutator d sig = .ok d1)
    (h : WinnerIffFinished d) :
    WinnerIffFinished d1 := by
  unfold markPayoutMutator at hok
  split_ifs at hok
  all_goals
    first
      | exact Except.noConfusion hok
      | (have he := Except.ok.inj hok
         subst he
         first
           | exact h
           | (unfold WinnerIffFinished at h ⊢; simpa using h))

theorem wif_mkDuel (duelId createdBy : String) (stake feeBps : Int)
    (paySigA : String) (t : Int) :
    WinnerIffFinished (mkDuel duelId createdBy stake feeBps paySigA t) := by
  simp [WinnerIffFinished, mkDuel]

/-- With the fee rate in its documented range, the fee never exceeds the
stake, so `Math.max(0, ·)` in `netStakeFor` is the identity. -/
theorem feeFor_le_stake (stake feeBps : Int)
    (hs : 0 ≤ stake) (h1 : feeBps ≤ 10000) :
    feeFor stake feeBps ≤ stake := by
  unfold feeFor
  rw [Int.fdiv_eq_ediv _ (by norm_num : (0:Int) ≤ 10000)]
  have h2 : stake * feeBps ≤ stake * 10000 := by
    exact mul_le_mul_of_nonneg_left h1 hs
  calc stake * feeBps / 10000 ≤ stake * 10000 / 10000 :=
        Int.ediv_le_ediv (by norm_num) h2
    _ = stake := Int.mul_ediv_cancel stake (by norm_num)

/-- C7: For every finished match with stake amount `stake` and fee rate
`feeBps` (basis points, in the documented range `0–10000`), the settlement
transfer amount computed by the payout route equals
`2 × (stake − floor(stake × feeBps / 10000))` in exact integer
arithmetic. -/
theorem pot_is_double_net_stake (stake feeBps : Int)
    (hs : 0 ≤ stake) (h0 : 0 ≤ feeBps) (h1 : feeBps ≤ 10000) :
    potLamports stake feeBps =
      2 * (stake - Int.fdiv (stake * feeBps) 10000) := by
  have hd := feeFor_le_stake stake feeBps hs h1
  unfold potLamports netStakeFor
  rw [max_eq_right (by omega : (0:Int) ≤ stake - feeFor stake feeBps)]
  unfold feeFor
  ring

/-- Witness for C7 at `stake = 100000000`, `feeBps = 300`. -/
theorem pot_is_double_net_stake_witness :
    (0:Int) ≤ 100000000 ∧ (0:Int) ≤ 300 ∧ (300:Int) ≤ 10000 ∧
    potLamports 100000000 300 =
      2 * (100000000 - Int.fdiv (100000000 * 300) 10000) :=
  ⟨by norm_num, by norm_num, by norm_num,
    pot_is_double_net_stake 100000000 300 (by norm_num) (by norm_num) (by norm_num)⟩

/-- C10: For all non-negative integer stakes and fee rates,
`netStakeFor(stake, feeBps) = max(0, stake − floor(stake·feeBps/10000))`
is never negative, so the payout amount `2 × netStakeFor` is never
negative either — even for `feeBps > 10000`, which the create route
accepts: it validates the stake but performs no check on `feeBps`. -/
theorem netStake_nonneg_and_create_skips_feeBps_check :
    (∀ stake feeBps : Int, 0 ≤ stake → 0 ≤ feeBps →
      0 ≤ netStakeFor stake feeBps ∧ 0 ≤ 2 * netStakeFor stake feeBps) ∧
    createRoute "DUEL1" "ALICE" 100 20000 "SIGA" 0 =
      .ok (mkDuel "DUEL1" "ALICE" 100 20000 "SIGA" 0) ∧
    (mkDuel "DUEL1" "ALICE" 100 20000 "SIGA" 0).feeBps = 20000 := by
  refine ⟨fun stake feeBps _ _ => ?_, rfl, rfl⟩
  constructor
  · exact le_max_left 0 _
  · have := le_max_left (0:Int) (stake - feeFor stake feeBps)
    unfold netStakeFor
    omega

/-- Witness for C10 at `stake = 100`, `feeBps = 20000`. -/
theorem netStake_nonneg_witness :
    (0:Int) ≤ 100 ∧ (0:Int) ≤ 20000 ∧
    (0 ≤ netStakeFor 100 20000 ∧ 0 ≤ 2 * netStakeFor 100 20000) :=
  ⟨by norm_num, by norm_num,
    netStake_nonneg_and_create_skips_feeBps_check.1 100 20000 (by norm_num) (by norm_num)⟩

/-- C5: For every unfinished match whose `finalizeAt` deadline has passed,
the auto-finalize step declares a sole clicker the winner and finishes the
match; with neither or both reaction times recorded it changes nothing. -/
theorem finalize_overdue_cases (d : Duel) (t f : Int)
    (hph : d.phase ≠ .finished) (hf : d.finalizeAt = some f) (hle : f ≤ t) :
    (d.clickA.isSome → d.clickB = none →
      (finalizeIfOverdueInternal d t).winner = some .A ∧
      (finalizeIfOverdueInternal d t).phase = .finished ∧
      (finalizeIfOverdueInternal d t).clickA = d.clickA ∧
      (finalizeIfOverdueInternal d t).clickB = none) ∧
    (d.clickB.isSome → d.clickA = none →
      (finalizeIfOverdueInternal d t).winner = some .B ∧
      (finalizeIfOverdueInternal d t).phase = .finished ∧
      (finalizeIfOverdueInternal d t).clickB = d.clickB ∧
      (finalizeIfOverdueInternal d t).clickA = none) ∧
    ((d.clickA.isSome ↔ d.clickB.isSome) →
      finalizeIfOverdueInternal d t = d) := by
  unfold finalizeIfOverdueInternal
  rw [hf]
  simp only [hph, if_false]
  have hnlt : ¬ t < f := by omega
  refine ⟨?_, ?_, ?_⟩
  · intro ha hb
    simp [hnlt, ha, hb]
  · intro hb ha
    simp [hnlt, ha, hb]
  · intro hiff
    by_cases ha : d.clickA.isSome
    · have hb : d.clickB.isSome := hiff.mp ha
      simp [hnlt, ha, hb]
    · have hb : ¬ d.clickB.isSome := fun hb => ha (hiff.mpr hb)
      simp [hnlt, ha, hb, Option.isNone_iff_eq_none, Option.not_isSome_iff_eq_none]

/-- Witness for C5: a sole `A` click past the deadline wins by default. -/
theorem finalize_overdue_cases_witness :
    exDuelGoA.phase ≠ DuelPhase.finished ∧
    (exDuelGoA.clickA.isSome → exDuelGoA.clickB = none →
      (finalizeIfOverdueInternal exDuelGoA 10000).winner = some .A ∧
      (finalizeIfOverdueInternal exDuelGoA 10000).phase = DuelPhase.finished ∧
      (finalizeIfOverdueInternal exDuelGoA 10000).clickA = exDuelGoA.clickA ∧
      (finalizeIfOverdueInternal exDuelGoA 10000).clickB = none) :=
  ⟨by decide,
    (finalize_overdue_cases exDuelGoA 10000 9200 (by decide) (by decide) (by norm_num)).1⟩

/-- C2: for every match record reachable by a sequence of the public
operations (create, join, ready, click, fetch, settle receipt marking) at
arbitrary server times and random draws, the winner field is present iff
the phase is `finished`. -/
theorem reachable_winner_iff_finished (d : Duel) (h : Reachable d) :
    d.winner.isSome ↔ d.phase = DuelPhase.finished := by
  have hwif : WinnerIffFinished d := by
    induction h with
    | create duelId createdBy stake feeBps paySigA t =>
        exact wif_mkDuel _ _ _ _ _ _
    | fetch d t rand _ ih => exact wif_timeStep d t rand ih
    | join d d1 joinedBy paySigB t rand _ hok ih =>
        exact wif_joinMutator _ _ _ _ _ hok (wif_timeStep _ _ _ ih)
    | ready d d1 pubkey t rand _ hok ih =>
        exact wif_setReadyMutator _ _ _ _ _ hok (wif_timeStep _ _ _ ih)
    | click d d1 who clickedAt t rand _ hok ih =>
        exact wif_applyClickMutator _ _ _ _ _ hok (wif_timeStep _ _ _ ih)
    | payout d d1 sig t rand _ hok ih =>
        exact wif_markPayoutMutator _ _ _ hok (wif_timeStep _ _ _ ih)
  exact hwif

/-- Witness for C2 at the freshly created record. -/
theorem reachable_winner_iff_finished_witness :
    (mkDuel "DUEL1" "ALICE" 100 300 "SIGA" 0).winner.isSome ↔
      (mkDuel "DUEL1" "ALICE" 100 300 "SIGA" 0).phase = DuelPhase.finished :=
  reachable_winner_iff_finished _ (Reachable.create "DUEL1" "ALICE" 100 300 "SIGA" 0)

/-- C9 counterexample: a CAS write performed at the same clock millisecond
as the version stamp it read (`tWrite = expected = 1000`) succeeds
(result code 1) yet leaves `updatedAt` equal to the previous version's, so
a successful write does not strictly increase the version stamp. -/
theorem casSave_same_millisecond_counterexample :
    (casSaveDuel (some (mkDuel "D" "ALICE" 100 300 "SA" 1000)) 1000 1000
        { mkDuel "D" "ALICE" 100 300 "SA" 1000 with readyA := true }).2 = 1 ∧
    (casSaveDuel (some (mkDuel "D" "ALICE" 100 300 "SA" 1000)) 1000 1000
        { mkDuel "D" "ALICE" 100 300 "SA" 1000 with readyA := true }).1.map
        Duel.updatedAt = some 1000 ∧
    (mkDuel "D" "ALICE" 100 300 "SA" 1000).updatedAt = 1000 := by
  refine ⟨by decide, by decide, by decide⟩

/-- C9 amended: a successful CAS write stores the new record with
`updatedAt` set to the write-time clock value, and succeeds only against a
stored record whose `updatedAt` equals the expected stamp; hence the
version stamp strictly increases exactly when the write-time clock has
strictly advanced past the stamp observed at read time (`Date.now` is not
strictly monotone across same-millisecond writes, so strictness is not
unconditional). -/
theorem casSave_updatedAt (cur : Option Duel) (c next : Duel)
    (expected tWrite : Int)
    (hc : cur = some c) (hs : (casSaveDuel cur expected tWrite next).2 = 1) :
    c.updatedAt = expected ∧
    (casSaveDuel cur expected tWrite next).1 =
      some { next with updatedAt := tWrite } ∧
    (expected < tWrite → c.updatedAt < tWrite) := by
  subst hc
  have hred : casSaveDuel (some c) expected tWrite next =
      if c.updatedAt ≠ expected then (some c, 0)
      else (some { next with updatedAt := tWrite }, 1) := rfl
  rw [hred] at hs ⊢
  by_cases h : c.updatedAt ≠ expected
  · rw [if_pos h] at hs
    simp at hs
  · push_neg at h
    rw [if_neg (not_ne_iff.mpr h)]
    exact ⟨h, rfl, fun hlt => by rw [h]; exact hlt⟩

/-- Witness for the amended C9 at `expected = 1000 < tWrite = 2000`. -/
theorem casSave_updatedAt_witness :
    (mkDuel "D" "ALICE" 100 300 "SA" 1000).updatedAt = 1000 ∧
    (casSaveDuel (some (mkDuel "D" "ALICE" 100 300 "SA" 1000)) 1000 2000
        { mkDuel "D" "ALICE" 100 300 "SA" 1000 with readyA := true }).1 =
      some { { mkDuel "D" "ALICE" 100 300 "SA" 1000 with readyA := true } with
              updatedAt := 2000 } ∧
    ((1000:Int) < 2000 →
      (mkDuel "D" "ALICE" 100 300 "SA" 1000).updatedAt < 2000) :=
  casSave_updatedAt _ (mkDuel "D" "ALICE" 100 300 "SA" 1000)
    { mkDuel "D" "ALICE" 100 300 "SA" 1000 with readyA := true }
    1000 2000 rfl (by decide)

/-- C1: once the payout receipt is set on a finished, winner-bearing match,
a further Settle call returns that same record (same receipt) and does not
invoke the external Settlement Executor, whether the lock is acquired or
busy; and the executor is only ever invoked on a fetched match that is
finished, has a winner, and has no receipt yet. -/
theorem settle_idempotent_and_guarded (d e : Duel) (s sig g : String)
    (l : Bool)
    (hph : d.phase = DuelPhase.finished) (hw : d.winner.isSome)
    (hsig : d.payoutSig = some s) :
    ((settleStep true (some d) sig).1 = SettleResp.ok d ∧
     (settleStep true (some d) sig).2 = false) ∧
    ((settleStep false (some d) sig).1 = SettleResp.lockedBusy (some d) ∧
     (settleStep false (some d) sig).2 = false) ∧
    ((settleStep l (some e) g).2 = true →
      e.phase = DuelPhase.finished ∧ e.winner.isSome ∧ e.payoutSig = none) ∧
    (settleStep l none g).2 = false := by
  obtain ⟨w, hww⟩ := Option.isSome_iff_exists.mp hw
  refine ⟨?_, ?_, ?_, ?_⟩
  · unfold settleStep
    simp [hph, hww, hsig]
  · unfold settleStep
    simp
  · intro hinv
    cases l with
    | false => simp [settleStep] at hinv
    | true =>
        unfold settleStep at hinv
        by_cases h1 : e.phase = DuelPhase.finished
        · by_cases h2 : e.winner.isNone
          · simp [h1, h2] at hinv
          · by_cases h3 : e.payoutSig.isSome
            · simp [h1, h2, h3] at hinv
            · refine ⟨h1, ?_, Option.not_isSome_iff_eq_none.mp h3⟩
              cases hwe : e.winner with
              | none => exact absurd (by simp [hwe]) h2
              | some w => simp [hwe]
        · simp [h1] at hinv
  · cases l <;> simp [settleStep]

/-- Witness for C1 at the settled example record. -/
theorem settle_idempotent_witness :
    ((settleStep true (some exDuelSettled) "NEW").1 = SettleResp.ok exDuelSettled ∧
     (settleStep true (some exDuelSettled) "NEW").2 = false) ∧
    ((settleStep false (some exDuelSettled) "NEW").1 =
        SettleResp.lockedBusy (some exDuelSettled) ∧
     (settleStep false (some exDuelSettled) "NEW").2 = false) ∧
    ((settleStep true (some exDuelSettled) "NEW").2 = true →
      exDuelSettled.phase = DuelPhase.finished ∧ exDuelSettled.winner.isSome ∧
      exDuelSettled.payoutSig = none) ∧
    (settleStep true none "NEW").2 = false :=
  settle_idempotent_and_guarded exDuelSettled exDuelSettled "RECEIPT1" "NEW" "NEW"
    true (by decide) (by decide) (by decide)

/-- C6: a round start from the ready room at server time `t` (both parties
ready, or the armed ready deadline elapsed) yields `revealAt = t + 3000`,
`goAt = revealAt + delay` with the random extra delay in the range
900–2200 ms, phase `countdown`, and every outcome field cleared. -/
theorem readyRoom_start_round (d : Duel) (t rand : Int)
    (h0 : 0 ≤ rand) (h1 : rand ≤ 1299)
    (hph : d.phase = DuelPhase.lobby) (hj : d.joinedBy.isSome)
    (hpa : d.paidA = true) (hpb : d.paidB = true)
    (hcond : (d.readyA ∧ d.readyB) ∨
      (∃ dl, d.readyDeadlineAt = some dl ∧ dl ≤ t)) :
    (maybeStartFromReadyRoom d t rand).revealAt = some (t + 3000) ∧
    (maybeStartFromReadyRoom d t rand).goAt = some (t + 3000 + (900 + rand)) ∧
    900 ≤ 900 + rand ∧ 900 + rand ≤ 2200 ∧
    (maybeStartFromReadyRoom d t rand).phase = DuelPhase.countdown ∧
    (maybeStartFromReadyRoom d t rand).clickA = none ∧
    (maybeStartFromReadyRoom d t rand).clickB = none ∧
    (maybeStartFromReadyRoom d t rand).falseA = false ∧
    (maybeStartFromReadyRoom d t rand).falseB = false ∧
    (maybeStartFromReadyRoom d t rand).winner = none ∧
    (maybeStartFromReadyRoom d t rand).finishedAt = none ∧
    (maybeStartFromReadyRoom d t rand).firstClickAt = none ∧
    (maybeStartFromReadyRoom d t rand).finalizeAt = none := by
  have hcond2 : (d.readyA ∧ d.readyB) ∨ d.readyDeadlineAt.getD (t + 30000) ≤ t := by
    rcases hcond with hboth | ⟨dl, hdl, hle⟩
    · exact Or.inl hboth
    · right
      rw [hdl]
      exact hle
  have hstart : maybeStartFromReadyRoom d t rand =
      startNow
        { d with readyDeadlineAt := some (d.readyDeadlineAt.getD (t + 30000)) }
        t rand := by
    unfold maybeStartFromReadyRoom
    split_ifs with hc1 hc2 hc3 hc4
    · exact absurd hph (by simp [hc1])
    · exact absurd hph hc2
    · exact absurd hj (by simp_all)
    · exact absurd hc4 (by simp [hpa, hpb])
    · dsimp only
      split_ifs
      rfl
  rw [hstart]
  unfold startNow
  exact ⟨rfl, rfl, by omega, by omega, rfl, rfl, rfl, rfl, rfl, rfl, rfl, rfl, rfl⟩

/-- Witness for C6: both parties ready at `t = 50`, `rand = 0`. -/
theorem readyRoom_start_round_witness :
    (maybeStartFromReadyRoom exDuelReady 50 0).revealAt = some (50 + 3000) ∧
    (maybeStartFromReadyRoom exDuelReady 50 0).goAt = some (50 + 3000 + (900 + 0)) ∧
    (900:Int) ≤ 900 + 0 ∧ (900:Int) + 0 ≤ 2200 ∧
    (maybeStartFromReadyRoom exDuelReady 50 0).phase = DuelPhase.countdown ∧
    (maybeStartFromReadyRoom exDuelReady 50 0).clickA = none ∧
    (maybeStartFromReadyRoom exDuelReady 50 0).clickB = none ∧
    (maybeStartFromReadyRoom exDuelReady 50 0).falseA = false ∧
    (maybeStartFromReadyRoom exDuelReady 50 0).falseB = false ∧
    (maybeStartFromReadyRoom exDuelReady 50 0).winner = none ∧
    (maybeStartFromReadyRoom exDuelReady 50 0).finishedAt = none ∧
    (maybeStartFromReadyRoom exDuelReady 50 0).firstClickAt = none ∧
    (maybeStartFromReadyRoom exDuelReady 50 0).finalizeAt = none :=
  readyRoom_start_round exDuelReady 50 0 (by norm_num) (by norm_num)
    (by decide) (by decide) (by decide) (by decide) (Or.inl (by decide))

/-- When both reaction times are present, `finishOrGo` finishes the match
and awards the strictly faster party, with ties going to `A`. -/
theorem finishOrGo_decides (d2 : Duel) (t ta tb : Int)
    (ha : d2.clickA = some ta) (hb : d2.clickB = some tb) :
    (finishOrGo d2 t).clickA = some ta ∧
    (finishOrGo d2 t).clickB = some tb ∧
    (finishOrGo d2 t).phase = DuelPhase.finished ∧
    (ta < tb → (finishOrGo d2 t).winner = some Party.A) ∧
    (tb < ta → (finishOrGo d2 t).winner = some Party.B) ∧
    (ta = tb → (finishOrGo d2 t).winner = some Party.A) := by
  unfold finishOrGo
  rw [if_pos (by simp [ha, hb])]
  refine ⟨ha, hb, rfl, ?_, ?_, ?_⟩
  · intro hlt
    simp only [ha, hb, Option.getD_some]
    rw [if_pos (le_of_lt hlt)]
  · intro hlt
    simp only [ha, hb, Option.getD_some]
    rw [if_neg (by omega)]
  · intro heq
    simp only [ha, hb, Option.getD_some]
    rw [if_pos (le_of_eq heq)]

/-- C3 counterexample: on a started, unfinished match (`phase = go`,
`goAt = 4000`) with a click instant 3500 before `goAt`, ApplyClick at
server time 10000 (past the armed `finalizeAt = 9200`, with only `A`
having clicked) finishes the match through the auto-finalize path:
clicker `A` is awarded the win, and `A`'s false-start flag stays false —
contradicting the claim that such a click sets the clicker's false-start
flag and declares the opponent (`B`) the winner. -/
theorem applyClick_preempted_by_finalize_counterexample :
    exDuelGoA.phase = DuelPhase.go ∧
    exDuelGoA.goAt = some 4000 ∧
    (3500:Int) < 4000 ∧
    (applyClickMutator exDuelGoA .A 3500 10000).map
      (fun r => (r.falseA, r.winner, r.phase)) =
      .ok (false, some Party.A, DuelPhase.finished) :=
  ⟨rfl, rfl, by norm_num, rfl⟩

/-- C3 amended: for every started, unfinished match *that the internal
time-driven transitions at the server receipt time do not already
finish*, an ApplyClick whose effective click instant is before `goAt`, or
whose computed reaction time `max(0, clickInstant − goAt)` is below
120 ms, sets the clicking party's false-start flag, declares the opponent
the winner, and moves the phase to `finished`. -/
theorem applyClick_false_start (d : Duel) (who : Party) (clickedAt t g : Int)
    (hj : d.joinedBy.isSome) (hr : d.revealAt.isSome) (hg : d.goAt = some g)
    (hpa : d.paidA = true) (hpb : d.paidB = true)
    (hph : d.phase ≠ DuelPhase.finished)
    (hts : (finalizeIfOverdueInternal (advancePhase d t) t).phase ≠
      DuelPhase.finished)
    (hcond : clickedAt < g ∨ max 0 (clickedAt - g) < 120) :
    ∃ r, applyClickMutator d who clickedAt t = .ok r ∧
      r.falseFlag who = true ∧ r.winner = some who.opponent ∧
      r.phase = DuelPhase.finished := by
  have hgoat : (finalizeIfOverdueInternal (advancePhase d t) t).goAt = some g := by
    rw [finalize_goAt, advancePhase_goAt, hg]
  unfold applyClickMutator
  dsimp only
  split_ifs with h1 h2 h3 h4 h5 h6
  · simp_all
  · simp_all
  · simp_all
  · refine ⟨_, rfl, ?_, ?_, ?_⟩ <;>
      (cases who <;> rfl)
  · refine ⟨_, rfl, ?_, ?_, ?_⟩ <;>
      (cases who <;> rfl)
  · exfalso
    rw [hgoat] at h4 h5
    simp only [Option.getD_some] at h4 h5
    rcases hcond with hlt | hfast
    · exact h4 hlt
    · exact h5 hfast
  · exfalso
    rw [hgoat] at h4 h5
    simp only [Option.getD_some] at h4 h5
    rcases hcond with hlt | hfast
    · exact h4 hlt
    · exact h5 hfast

/-- Witness for the amended C3: party `B` clicks at instant 3500, before
`goAt = 4000`, at server time 5000 (no deadline elapsed): `B` false-starts
and `A` wins. -/
theorem applyClick_false_start_witness :
    ∃ r, applyClickMutator exDuelGoA .B 3500 5000 = .ok r ∧
      r.falseFlag .B = true ∧ r.winner = some (Party.opponent .B) ∧
      r.phase = DuelPhase.finished :=
  applyClick_false_start exDuelGoA .B 3500 5000 4000 (by decide) (by decide)
    (by decide) (by decide) (by decide) (by decide) (by decide)
    (Or.inl (by norm_num))

/-- C4: when the clicking party's click is valid (at least `goAt + 120`),
not a repeat, and the opponent already holds a recorded reaction time, the
ApplyClick that records the second reaction time finishes the match and
awards the party with the lower reaction time, ties resolving to `A`. -/
theorem applyClick_second_click_decides (d : Duel) (who : Party)
    (clickedAt t g r0 : Int)
    (hj : d.joinedBy.isSome) (hr : d.revealAt.isSome) (hg : d.goAt = some g)
    (hpa : d.paidA = true) (hpb : d.paidB = true)
    (hph : d.phase ≠ DuelPhase.finished)
    (hts : (finalizeIfOverdueInternal (advancePhase d t) t).phase ≠
      DuelPhase.finished)
    (hc : g + 120 ≤ clickedAt)
    (hmine : d.click who = none) (hopp : d.click who.opponent = some r0) :
    ∃ r, applyClickMutator d who clickedAt t = .ok r ∧
      ∃ ta tb, r.clickA = some ta ∧ r.clickB = some tb ∧
        r.phase = DuelPhase.finished ∧
        (ta < tb → r.winner = some Party.A) ∧
        (tb < ta → r.winner = some Party.B) ∧
        (ta = tb → r.winner = some Party.A) := by
  have hgoat : (finalizeIfOverdueInternal (advancePhase d t) t).goAt = some g := by
    rw [finalize_goAt, advancePhase_goAt, hg]
  have hres : applyClickMutator d who clickedAt t =
      .ok (recordClick (finalizeIfOverdueInternal (advancePhase d t) t) who
        (max 0 (clickedAt -
          (finalizeIfOverdueInternal (advancePhase d t) t).goAt.getD 0)) t) := by
    unfold applyClickMutator
    dsimp only
    split_ifs with h1 h2 h3 h4 h5 h6
    · simp_all
    · simp_all
    · simp_all
    · exfalso
      rw [hgoat] at h4
      simp only [Option.getD_some] at h4
      omega
    · exfalso
      rw [hgoat] at h5
      simp only [Option.getD_some] at h5
      rw [max_eq_right (by omega)] at h5
      omega
    · exfalso
      rw [finalize_click, advancePhase_click, hmine] at h6
      simp at h6
    · rfl
  refine ⟨_, hres, ?_⟩
  have hmine2 : (finalizeIfOverdueInternal (advancePhase d t) t).click who = none := by
    rw [finalize_click, advancePhase_click]
    exact hmine
  have hopp2 : (finalizeIfOverdueInternal (advancePhase d t) t).click who.opponent =
      some r0 := by
    rw [finalize_click, advancePhase_click]
    exact hopp
  cases who with
  | A =>
      refine ⟨max 0 (clickedAt -
        (finalizeIfOverdueInternal (advancePhase d t) t).goAt.getD 0), r0, ?_⟩
      unfold recordClick
      dsimp only
      split_ifs with hfc
      · exact finishOrGo_decides _ t _ r0 rfl (by exact hopp2)
      · exact finishOrGo_decides _ t _ r0 rfl (by exact hopp2)
  | B =>
      refine ⟨r0, max 0 (clickedAt -
        (finalizeIfOverdueInternal (advancePhase d t) t).goAt.getD 0), ?_⟩
      unfold recordClick
      dsimp only
      split_ifs with hfc
      · exact finishOrGo_decides _ t r0 _ (by exact hopp2) rfl
      · exact finishOrGo_decides _ t r0 _ (by exact hopp2) rfl

/-- Witness for C4: `A` clicked with 200 ms; `B` clicks at instant 4300
(reaction 300 ms) at server time 5000: finished, `A` wins as the lower
time. -/
theorem applyClick_second_click_decides_witness :
    ∃ r, applyClickMutator exDuelGoA .B 4300 5000 = .ok r ∧
      ∃ ta tb, r.clickA = some ta ∧ r.clickB = some tb ∧
        r.phase = DuelPhase.finished ∧
        (ta < tb → r.winner = some Party.A) ∧
        (tb < ta → r.winner = some Party.B) ∧
        (ta = tb → r.winner = some Party.A) :=
  applyClick_second_click_decides exDuelGoA .B 4300 5000 4000 200 (by decide)
    (by decide) (by decide) (by decide) (by decide) (by decide) (by decide)
    (by norm_num) (by decide) (by decide)

/-- C8 counterexample: party `A` already has the recorded reaction time
200 ms, yet a further ApplyClick by `A` with click instant 3500 (before
`goAt = 4000`) at server time 5000 is processed as a fresh false start: it
changes the record (sets `falseA`, awards `B`, finishes the match) rather
than being a no-op, and leaves `A` holding both a recorded reaction time
and a true false-start flag — contradicting both parts of the claim. -/
theorem applyClick_repeat_false_start_counterexample :
    exDuelGoA.clickA = some 200 ∧
    (applyClickMutator exDuelGoA .A 3500 5000).map
      (fun r => (r.clickA, r.falseA, r.winner, r.phase)) =
      .ok (some 200, true, some Party.B, DuelPhase.finished) :=
  ⟨rfl, rfl⟩

/-- C8 amended: a further ApplyClick by a party that already has a
recorded reaction time leaves the record unchanged and is not an error,
*provided* the click does not itself trigger a false-start branch (its
instant is at least `goAt + 120`) and no finalize deadline has elapsed; a
repeat click hitting a false-start branch is processed afresh, so a party
can hold both a recorded reaction time and a true false-start flag. -/
theorem applyClick_repeat_noop (d : Duel) (who : Party) (clickedAt t g : Int)
    (hj : d.joinedBy.isSome) (hr : d.revealAt.isSome) (hg : d.goAt = some g)
    (hpa : d.paidA = true) (hpb : d.paidB = true)
    (hph : d.phase = DuelPhase.go)
    (hfin : ∀ f, d.finalizeAt = some f → t < f)
    (hc : g + 120 ≤ clickedAt)
    (hmine : (d.click who).isSome) :
    applyClickMutator d who clickedAt t = .ok d := by
  obtain ⟨rv, hrv⟩ := Option.isSome_iff_exists.mp hr
  obtain ⟨j, hjv⟩ := Option.isSome_iff_exists.mp hj
  have hadv : advancePhase d t = d := by
    unfold advancePhase
    rw [if_neg (by simp [hph]), if_neg (by simp [hrv, hg]),
      if_neg (by simp [hph]), if_neg (by simp [hph])]
  have hfin2 : finalizeIfOverdueInternal d t = d := by
    unfold finalizeIfOverdueInternal
    rw [if_neg (by simp [hph])]
    cases hfa : d.finalizeAt with
    | none => rfl
    | some f =>
        dsimp only
        rw [if_pos (hfin f hfa)]
  unfold applyClickMutator
  rw [if_neg (by simp [hjv]), if_neg (by simp [hrv, hg]),
    if_neg (by simp [hpa, hpb]), if_neg (by simp [hph])]
  dsimp only
  rw [hadv, hfin2, hg]
  rw [if_neg (by simp [hph]), if_neg (by simp only [Option.getD_some]; omega)]
  dsimp only [Option.getD_some]
  rw [if_neg (by rw [max_eq_right (by omega)]; omega), if_pos hmine]

/-- Witness for the amended C8: a repeat click by `A` at instant 4300,
server time 5000, is a no-op returning the unchanged record. -/
theorem applyClick_repeat_noop_witness :
    (exDuelGoA.click .A).isSome ∧
    applyClickMutator exDuelGoA .A 4300 5000 = .ok exDuelGoA :=
  ⟨by decide,
    applyClick_repeat_noop exDuelGoA .A 4300 5000 4000 (by decide) (by decide)
      (by decide) (by decide) (by decide) (by decide)
      (fun f hf => by
        have hf2 : f = 9200 := by
          have := hf
          simp [exDuelGoA, mkDuel] at this
          omega
        omega)
      (by norm_num) (by decide)⟩

end ReactionDuel
